import Mathlib

/-!
Shallow embedding of the process-station allocation program.

The source operates on a pandas DataFrame whose rows carry
id, name, expectedTimeInMin, machineType and dependency.  We model the
table as a `List Process` in row order, durations as exact rationals,
and the allocator as a function from the table, the dependency flag and
the throughput target to either a validation error (the pair of the
offending process id and the missing dependency id) or the ordered list
of stations.
-/

namespace StationAllocation

/-- One row of the process table: id, display name, duration in minutes,
required machine type, and the list of prerequisite process ids. -/
structure Process where
  id : String
  name : String
  expectedTimeInMin : ℚ
  machineType : String
  dependency : List String
  deriving DecidableEq

/-- The `{id, name}` summary stored in a station under `processes`. -/
structure ProcSummary where
  id : String
  name : String
  deriving DecidableEq

/-- One allocated station, mirroring the dict built by the allocator. -/
structure Station where
  station_id : String
  processes : List ProcSummary
  total_expected_time : ℚ
  waste_time : ℚ
  machines_required : ℤ
  deriving DecidableEq

def procSummary (p : Process) : ProcSummary :=
  { id := p.id, name := p.name }

/-- Sum of the expected times of a list of processes, as in
calculate_station_time and the inlined sums of the allocator. -/
def calculate_station_time (l : List Process) : ℚ :=
  (l.map (fun p => p.expectedTimeInMin)).sum

/-- The dependency validation loop: scan rows in table order and return
the first pair (process id, dependency id) whose dependency id is not
among the table ids, as the ValueError message reports them. -/
def findViolationAux (ids : List String) : List Process → Option (String × String)
  | [] => none
  | p :: rest =>
    match p.dependency.find? (fun d => decide (d ∉ ids)) with
    | some d => some (p.id, d)
    | none => findViolationAux ids rest

def findViolation (df : List Process) : Option (String × String) :=
  findViolationAux (df.map (fun p => p.id)) df

/-- Mode A seed search: first row in table order whose id is unallocated
and whose dependencies are all allocated. -/
def findSeed (allocated : List String) : List Process → Option Process
  | [] => none
  | p :: rest =>
    if p.id ∈ allocated then findSeed allocated rest
    else if ∀ d ∈ p.dependency, d ∈ allocated then some p
    else findSeed allocated rest

/-- Mode A inner scan: walk the whole table again and append every
unallocated row of the seed machine type whose dependencies are
allocated and whose addition keeps the running sum within the target,
marking each appended row allocated at once. -/
def scanStation (machine : String) (target : ℚ) :
    List Process → List String → List Process → List Process × List String
  | [], allocated, current => (current, allocated)
  | p :: rest, allocated, current =>
    if p.id ∈ allocated then scanStation machine target rest allocated current
    else if p.machineType = machine ∧ (∀ d ∈ p.dependency, d ∈ allocated) ∧
        calculate_station_time current + p.expectedTimeInMin ≤ target then
      scanStation machine target rest (p.id :: allocated) (current ++ [p])
    else scanStation machine target rest allocated current

/-- The station dict appended in Mode A: machines_required is the flat 1. -/
def mkStationA (sid : Nat) (target : ℚ) (current : List Process) : Station :=
  { station_id := "S" ++ toString sid
    processes := current.map procSummary
    total_expected_time := calculate_station_time current
    waste_time := target - calculate_station_time current
    machines_required := 1 }

/-- The Mode A while loop.  Fuel bounds the number of iterations; the
loop itself stops when every row id is allocated or no seed is found.
`df.length + 1` fuel is always enough (each iteration allocates the
seed, so the allocated set strictly grows). -/
def modeALoop (df : List Process) (target : ℚ) :
    Nat → List String → Nat → List Station
  | 0, _, _ => []
  | fuel + 1, allocated, sid =>
    if allocated.length < df.length then
      match findSeed allocated df with
      | none => []
      | some seed =>
        mkStationA sid target
            (scanStation seed.machineType target df (seed.id :: allocated) [seed]).1 ::
          modeALoop df target fuel
            (scanStation seed.machineType target df (seed.id :: allocated) [seed]).2 (sid + 1)
    else []

/-- The station dict appended in Mode B: machines_required is
ceil(total_expected_time). -/
def mkStationB (sid : Nat) (target : ℚ) (current : List Process) (total : ℚ) : Station :=
  { station_id := "S" ++ toString sid
    processes := current.map procSummary
    total_expected_time := total
    waste_time := target - total
    machines_required := Int.ceil total }

/-- Mode B inner loop over one machine-type group: keep a running
station; when a process no longer fits, close the station and reopen
with that process.  Returns the closed stations, the open station, its
running total and the next station number. -/
def packGroupAux (target : ℚ) :
    List Process → List Process → ℚ → Nat → List Station × List Process × ℚ × Nat
  | [], current, total, sid => ([], current, total, sid)
  | p :: rest, current, total, sid =>
    if total + p.expectedTimeInMin ≤ target then
      packGroupAux target rest (current ++ [p]) (total + p.expectedTimeInMin) sid
    else
      (mkStationB sid target current total ::
          (packGroupAux target rest [p] p.expectedTimeInMin (sid + 1)).1,
        (packGroupAux target rest [p] p.expectedTimeInMin (sid + 1)).2)

/-- Mode B handling of one group: run the inner loop and close the
still-open station when it is nonempty. -/
def packGroup (target : ℚ) (group : List Process) (sid : Nat) : List Station × Nat :=
  if (packGroupAux target group [] 0 sid).2.1 = [] then
    ((packGroupAux target group [] 0 sid).1, (packGroupAux target group [] 0 sid).2.2.2)
  else
    ((packGroupAux target group [] 0 sid).1 ++
        [mkStationB (packGroupAux target group [] 0 sid).2.2.2 target
          (packGroupAux target group [] 0 sid).2.1 (packGroupAux target group [] 0 sid).2.2.1],
      (packGroupAux target group [] 0 sid).2.2.2 + 1)

/-- Code-point lexicographic order on strings, via their character
lists; this is the order in which the groupby sorts its keys. -/
def strLe (a b : String) : Prop := ¬ b.data < a.data

instance : DecidableRel strLe := fun _ _ => instDecidableNot

/-- The distinct machine types of the table in sorted key order, as the
pandas groupby yields its groups. -/
def machineTypes (df : List Process) : List String :=
  List.insertionSort strLe ((df.map (fun p => p.machineType)).dedup)

/-- Mode B outer loop: one group per machine type, station numbering
threaded across groups. -/
def modeBGroups (df : List Process) (target : ℚ) :
    List String → Nat → List Station
  | [], _ => []
  | m :: rest, sid =>
    (packGroup target (df.filter (fun p => decide (p.machineType = m))) sid).1 ++
      modeBGroups df target rest
        (packGroup target (df.filter (fun p => decide (p.machineType = m))) sid).2

def modeB (df : List Process) (target : ℚ) : List Station :=
  modeBGroups df target (machineTypes df) 1

/-- The allocator.  In dependency mode it first validates dependencies
(raising the error pair), then runs the while loop; otherwise it groups
by machine type. -/
def allocate_processes_to_stations (df : List Process)
    (respect_dependencies : Bool) (throughput_target : ℚ) :
    Except (String × String) (List Station) :=
  if respect_dependencies then
    match findViolation df with
    | some e => Except.error e
    | none => Except.ok (modeALoop df throughput_target (df.length + 1) [] 1)
  else
    Except.ok (modeB df throughput_target)

/-- The three aggregate numbers of the summary report. -/
structure Summary where
  total_stations : Nat
  total_waste_time : ℚ
  total_machines_required : ℤ
  deriving DecidableEq

def generate_summary_report (stations : List Station) : Summary :=
  { total_stations := stations.length
    total_waste_time := (stations.map (fun s => s.waste_time)).sum
    total_machines_required := (stations.map (fun s => s.machines_required)).sum }

/-! ## Concrete tables used by scenario claims and witnesses -/

/-- The three-process table of the Mode A scenario. -/
def dfScenario : List Process :=
  [ { id := "A", name := "A", expectedTimeInMin := 0.4, machineType := "M1", dependency := [] }
  , { id := "B", name := "B", expectedTimeInMin := 0.3, machineType := "M1", dependency := ["A"] }
  , { id := "C", name := "C", expectedTimeInMin := 0.5, machineType := "M2", dependency := ["A"] } ]

/-- A one-row table whose only process declares a missing dependency. -/
def dfBadDep : List Process :=
  [ { id := "B", name := "B", expectedTimeInMin := 0.3, machineType := "M1", dependency := ["Z"] } ]

/-- A one-row table whose single process takes longer than target 1. -/
def pOver : Process :=
  { id := "X", name := "X", expectedTimeInMin := 2, machineType := "M1", dependency := [] }

def dfOverflowA : List Process := [pOver]

/-- The Mode A station produced for `dfOverflowA` at target 1. -/
def stOverflowA : Station :=
  { station_id := "S1", processes := [{ id := "X", name := "X" }]
    total_expected_time := 2, waste_time := -1, machines_required := 1 }

/-- The empty station Mode B closes for `dfOverflowA` at target 1. -/
def stEmptyB : Station :=
  { station_id := "S1", processes := []
    total_expected_time := 0, waste_time := 1, machines_required := 0 }

/-- The second Mode B station for `dfOverflowA` at target 1. -/
def stXB : Station :=
  { station_id := "S2", processes := [{ id := "X", name := "X" }]
    total_expected_time := 2, waste_time := -1, machines_required := 2 }

/-- A two-row dependency chain with integral durations, for witnesses. -/
def dfDepW : List Process :=
  [ { id := "A", name := "A", expectedTimeInMin := 1, machineType := "M1", dependency := [] }
  , { id := "B", name := "B", expectedTimeInMin := 1, machineType := "M1", dependency := ["A"] } ]

/-- The single Mode A station for `dfDepW` at target 3. -/
def stDepW : Station :=
  { station_id := "S1"
    processes := [{ id := "A", name := "A" }, { id := "B", name := "B" }]
    total_expected_time := 2, waste_time := 1, machines_required := 1 }

/-! ## Validation lemmas -/

theorem findViolationAux_eq_none (ids : List String) :
    ∀ l : List Process, findViolationAux ids l = none ↔
      ∀ p ∈ l, ∀ d ∈ p.dependency, d ∈ ids := by
  intro l
  induction l with
  | nil => simp [findViolationAux]
  | cons p rest ih =>
    rw [findViolationAux]
    cases hf : p.dependency.find? (fun d => decide (d ∉ ids)) with
    | some d =>
      simp only [reduceCtorEq, false_iff]
      intro hall
      have hd := List.find?_some hf
      have hmem := List.mem_of_find?_eq_some hf
      rw [decide_eq_true_iff] at hd
      exact hd (hall p (by simp) d hmem)
    | none =>
      rw [List.find?_eq_none] at hf
      simp only [ih, List.mem_cons]
      constructor
      · rintro h q (rfl | hq) d hd
        · have := hf d hd
          rw [decide_eq_true_iff] at this
          exact not_not.mp this
        · exact h q hq d hd
      · intro h q hq d hd
        exact h q (Or.inr hq) d hd

theorem findViolationAux_eq_some (ids : List String) :
    ∀ (l : List Process) (pid d : String), findViolationAux ids l = some (pid, d) →
      ∃ p ∈ l, p.id = pid ∧ d ∈ p.dependency ∧ d ∉ ids := by
  intro l
  induction l with
  | nil => simp [findViolationAux]
  | cons p rest ih =>
    intro pid d h
    rw [findViolationAux] at h
    cases hf : p.dependency.find? (fun x => decide (x ∉ ids)) with
    | some x =>
      rw [hf] at h
      obtain ⟨h1, h2⟩ := Prod.mk.injEq .. ▸ Option.some.injEq .. ▸ h
      refine ⟨p, by simp, h1, ?_⟩
      subst h2
      have hd := List.find?_some hf
      rw [decide_eq_true_iff] at hd
      exact ⟨List.mem_of_find?_eq_some hf, hd⟩
    | none =>
      rw [hf] at h
      obtain ⟨q, hq, hrest⟩ := ih pid d h
      exact ⟨q, List.mem_cons_of_mem _ hq, hrest⟩

/-! ## Station time arithmetic -/

theorem calculate_station_time_append (l1 l2 : List Process) :
    calculate_station_time (l1 ++ l2) =
      calculate_station_time l1 + calculate_station_time l2 := by
  simp [calculate_station_time]

theorem calculate_station_time_singleton (p : Process) :
    calculate_station_time [p] = p.expectedTimeInMin := by
  simp [calculate_station_time]

/-! ## Mode A seed search and inner scan -/

theorem findSeed_spec (alloc : List String) :
    ∀ (df : List Process) (p : Process), findSeed alloc df = some p →
      p ∈ df ∧ p.id ∉ alloc ∧ ∀ d ∈ p.dependency, d ∈ alloc := by
  intro df
  induction df with
  | nil => simp [findSeed]
  | cons q rest ih =>
    intro p h
    rw [findSeed] at h
    by_cases h1 : q.id ∈ alloc
    · rw [if_pos h1] at h
      obtain ⟨hm, hrest⟩ := ih p h
      exact ⟨List.mem_cons_of_mem _ hm, hrest⟩
    · rw [if_neg h1] at h
      by_cases h2 : ∀ d ∈ q.dependency, d ∈ alloc
      · rw [if_pos h2] at h
        injection h with h
        subst h
        exact ⟨by simp, h1, h2⟩
      · rw [if_neg h2] at h
        obtain ⟨hm, hrest⟩ := ih p h
        exact ⟨List.mem_cons_of_mem _ hm, hrest⟩

/-- The single structural description of the inner scan: it appends some
extension to the open station, pushes exactly the ids of that extension
on the allocated list, every appended process is a table row of the seed
machine type that was unallocated and has its dependencies allocated at
the end of the scan, the appended ids are distinct, and either the final
station total is within the target or nothing was appended. -/
theorem scanStation_spec (m : String) (t : ℚ) :
    ∀ (df : List Process) (alloc : List String) (cur : List Process),
      ∃ ext : List Process,
        (scanStation m t df alloc cur).1 = cur ++ ext ∧
        (scanStation m t df alloc cur).2 = (ext.map (fun p => p.id)).reverse ++ alloc ∧
        (∀ q ∈ ext, q ∈ df ∧ q.machineType = m ∧ q.id ∉ alloc ∧
          ∀ d ∈ q.dependency, d ∈ (scanStation m t df alloc cur).2) ∧
        (ext.map (fun p => p.id)).Nodup ∧
        (calculate_station_time (scanStation m t df alloc cur).1 ≤ t ∨ ext = []) := by
  intro df
  induction df with
  | nil =>
    intro alloc cur
    refine ⟨[], by simp [scanStation], by simp [scanStation], by simp, by simp, Or.inr rfl⟩
  | cons p rest ih =>
    intro alloc cur
    rw [scanStation]
    by_cases h1 : p.id ∈ alloc
    · rw [if_pos h1]
      obtain ⟨ext2, e1, e2, e3, e4, e5⟩ := ih alloc cur
      exact ⟨ext2, e1, e2, fun q hq =>
        ⟨List.mem_cons_of_mem _ (e3 q hq).1, (e3 q hq).2⟩, e4, e5⟩
    · rw [if_neg h1]
      by_cases h2 : p.machineType = m ∧ (∀ d ∈ p.dependency, d ∈ alloc) ∧
          calculate_station_time cur + p.expectedTimeInMin ≤ t
      · rw [if_pos h2]
        obtain ⟨ext2, e1, e2, e3, e4, e5⟩ := ih (p.id :: alloc) (cur ++ [p])
        refine ⟨p :: ext2, ?_, ?_, ?_, ?_, ?_⟩
        · rw [e1]; simp
        · rw [e2]; simp
        · intro q hq
          rcases List.mem_cons.mp hq with rfl | hq2
          · refine ⟨by simp, h2.1, h1, fun d hd => ?_⟩
            rw [e2]
            exact List.mem_append_right _ (List.mem_cons_of_mem _ (h2.2.1 d hd))
          · obtain ⟨hmem, hmt, hid, hdep⟩ := e3 q hq2
            exact ⟨List.mem_cons_of_mem _ hmem, hmt,
              fun hc => hid (List.mem_cons_of_mem _ hc), hdep⟩
        · rw [List.map_cons, List.nodup_cons]
          refine ⟨fun hc => ?_, e4⟩
          obtain ⟨q, hq, hqid⟩ := List.mem_map.mp hc
          exact (e3 q hq).2.2.1 (hqid ▸ List.mem_cons_self _ _)
        · left
          rcases e5 with h5 | h5
          · exact h5
          · subst h5
            rw [e1, List.append_nil, calculate_station_time_append,
              calculate_station_time_singleton]
            exact h2.2.2
      · rw [if_neg h2]
        obtain ⟨ext2, e1, e2, e3, e4, e5⟩ := ih alloc cur
        exact ⟨ext2, e1, e2, fun q hq =>
          ⟨List.mem_cons_of_mem _ (e3 q hq).1, (e3 q hq).2⟩, e4, e5⟩

/-! ## Mode A loop invariants -/

/-- Shape of every station built by the Mode A loop: flat machine count
of one, waste defined as target minus total, and a total within the
target unless the station is the seed alone. -/
theorem modeALoop_stations (df : List Process) (t : ℚ) :
    ∀ (fuel : Nat) (alloc : List String) (sid : Nat),
      ∀ st ∈ modeALoop df t fuel alloc sid,
        st.machines_required = 1 ∧
        st.waste_time = t - st.total_expected_time ∧
        (st.total_expected_time ≤ t ∨
          ∃ p ∈ df, st.processes = [procSummary p] ∧
            st.total_expected_time = p.expectedTimeInMin) := by
  intro fuel
  induction fuel with
  | zero =>
    intro alloc sid st hst
    simp [modeALoop] at hst
  | succ fuel ih =>
    intro alloc sid st hst
    rw [modeALoop] at hst
    by_cases hg : alloc.length < df.length
    · rw [if_pos hg] at hst
      cases hseed : findSeed alloc df with
      | none =>
        rw [hseed] at hst
        simp at hst
      | some seed =>
        rw [hseed] at hst
        rcases List.mem_cons.mp hst with rfl | hst2
        · refine ⟨rfl, rfl, ?_⟩
          obtain ⟨ext, e1, _, _, _, e5⟩ :=
            scanStation_spec seed.machineType t df (seed.id :: alloc) [seed]
          rcases e5 with h5 | h5
          · exact Or.inl h5
          · subst h5
            rw [e1, List.append_nil] at *
            refine Or.inr ⟨seed, (findSeed_spec alloc df seed hseed).1, ?_, ?_⟩
            · simp [mkStationA]
            · simp [mkStationA, calculate_station_time_singleton]
        · exact ih _ _ st hst2
    · rw [if_neg hg] at hst
      simp at hst

/-! ## Claim theorems (scenario and validation) -/

/-- Claim C1: on the table [A: 0.4 on M1; B: 0.3 on M1 after A; C: 0.5 on M2
after A] with target 1 in dependency mode, the allocator returns exactly
station S1 with A then B (total 0.7) followed by station S2 with C
(total 0.5). -/
theorem claim_C1 :
    allocate_processes_to_stations dfScenario true 1 =
      Except.ok
        [ { station_id := "S1"
            processes := [{ id := "A", name := "A" }, { id := "B", name := "B" }]
            total_expected_time := 0.7
            waste_time := 0.3
            machines_required := 1 }
        , { station_id := "S2"
            processes := [{ id := "C", name := "C" }]
            total_expected_time := 0.5
            waste_time := 0.5
            machines_required := 1 } ] := by
  norm_num +decide [dfScenario, allocate_processes_to_stations, findViolation,
    findViolationAux, modeALoop, findSeed, scanStation, mkStationA,
    calculate_station_time]

/-- Claim C2: in dependency mode the allocator fails exactly when some
row declares a dependency id absent from the table id column; the error
value names the offending process id and the missing dependency id, and
the error constructor carries no stations.  Without dependency mode the
result is always ok. -/
theorem claim_C2 (df : List Process) (t : ℚ) :
    ((∃ e, allocate_processes_to_stations df true t = Except.error e) ↔
      ∃ p ∈ df, ∃ d ∈ p.dependency, d ∉ df.map (fun q => q.id)) ∧
    (∀ pid d, allocate_processes_to_stations df true t = Except.error (pid, d) →
      ∃ p ∈ df, p.id = pid ∧ d ∈ p.dependency ∧ d ∉ df.map (fun q => q.id)) ∧
    (∃ sts, allocate_processes_to_stations df false t = Except.ok sts) := by
  refine ⟨?_, ?_, ⟨modeB df t, rfl⟩⟩
  · constructor
    · rintro ⟨e, he⟩
      rw [allocate_processes_to_stations] at he
      simp only [if_true] at he
      cases hv : findViolation df with
      | none => rw [hv] at he; exact absurd he (by simp)
      | some v =>
        rw [hv] at he
        obtain ⟨pid, d⟩ := v
        obtain ⟨p, hp, _, hd, hni⟩ := findViolationAux_eq_some _ df pid d hv
        exact ⟨p, hp, d, hd, hni⟩
    · intro ⟨p, hp, d, hd, hni⟩
      cases hv : findViolation df with
      | none =>
        rw [findViolation, findViolationAux_eq_none] at hv
        exact absurd (hv p hp d hd) hni
      | some v =>
        exact ⟨v, by rw [allocate_processes_to_stations]; simp [hv]⟩
  · intro pid d h
    rw [allocate_processes_to_stations] at h
    simp only [if_true] at h
    cases hv : findViolation df with
    | none => rw [hv] at h; exact absurd h (by simp)
    | some v =>
      rw [hv] at h
      have : v = (pid, d) := by
        have := h
        simp only [Except.error.injEq] at this
        exact this
      subst this
      exact findViolationAux_eq_some _ df pid d hv

/-- Claim C2 witness: the invalid-dependency scenario table does produce
an error, and the forward direction of C2 yields the violating row. -/
theorem claim_C2_witness :
    ∃ p ∈ dfBadDep, ∃ d ∈ p.dependency, d ∉ dfBadDep.map (fun q => q.id) :=
  (claim_C2 dfBadDep 1).1.mp ⟨("B", "Z"), rfl⟩

/-! ## Mode B station shapes -/

theorem packGroupAux_stations (t : ℚ) :
    ∀ (g cur : List Process) (tot : ℚ) (sid : Nat),
      ∀ st ∈ (packGroupAux t g cur tot sid).1,
        st.machines_required = Int.ceil st.total_expected_time ∧
        st.waste_time = t - st.total_expected_time := by
  intro g
  induction g with
  | nil =>
    intro cur tot sid st hst
    simp [packGroupAux] at hst
  | cons p rest ih =>
    intro cur tot sid st hst
    rw [packGroupAux] at hst
    by_cases hc : tot + p.expectedTimeInMin ≤ t
    · rw [if_pos hc] at hst
      exact ih _ _ _ st hst
    · rw [if_neg hc] at hst
      rcases List.mem_cons.mp hst with rfl | hst2
      · exact ⟨rfl, rfl⟩
      · exact ih _ _ _ st hst2

theorem packGroup_stations (t : ℚ) (g : List Process) (sid : Nat) :
    ∀ st ∈ (packGroup t g sid).1,
      st.machines_required = Int.ceil st.total_expected_time ∧
      st.waste_time = t - st.total_expected_time := by
  intro st hst
  rw [packGroup] at hst
  by_cases he : (packGroupAux t g [] 0 sid).2.1 = []
  · rw [if_pos he] at hst
    exact packGroupAux_stations t g [] 0 sid st hst
  · rw [if_neg he] at hst
    rcases List.mem_append.mp hst with h | h
    · exact packGroupAux_stations t g [] 0 sid st h
    · have := List.mem_singleton.mp h
      subst this
      exact ⟨rfl, rfl⟩

theorem modeBGroups_stations (df : List Process) (t : ℚ) :
    ∀ (ms : List String) (sid : Nat), ∀ st ∈ modeBGroups df t ms sid,
      st.machines_required = Int.ceil st.total_expected_time ∧
      st.waste_time = t - st.total_expected_time := by
  intro ms
  induction ms with
  | nil =>
    intro sid st hst
    simp [modeBGroups] at hst
  | cons m rest ih =>
    intro sid st hst
    rw [modeBGroups] at hst
    rcases List.mem_append.mp hst with h | h
    · exact packGroup_stations _ _ _ st h
    · exact ih _ st h

/-! ## Destructuring the allocator result -/

theorem allocate_true_ok (df : List Process) (t : ℚ) (sts : List Station)
    (h : allocate_processes_to_stations df true t = Except.ok sts) :
    findViolation df = none ∧ sts = modeALoop df t (df.length + 1) [] 1 := by
  rw [allocate_processes_to_stations] at h
  simp only [if_true] at h
  cases hv : findViolation df with
  | some e =>
    rw [hv] at h
    exact absurd h (by simp)
  | none =>
    rw [hv] at h
    refine ⟨rfl, ?_⟩
    injection h with h
    exact h.symm

theorem allocate_false_ok (df : List Process) (t : ℚ) (sts : List Station)
    (h : allocate_processes_to_stations df false t = Except.ok sts) :
    sts = modeB df t := by
  rw [allocate_processes_to_stations] at h
  simp only [Bool.false_eq_true, if_false] at h
  injection h with h
  exact h.symm

/-- Every station the allocator returns, in either mode, records
waste_time as target minus total_expected_time. -/
theorem allocate_waste (df : List Process) (b : Bool) (t : ℚ) (sts : List Station)
    (h : allocate_processes_to_stations df b t = Except.ok sts) :
    ∀ st ∈ sts, st.waste_time = t - st.total_expected_time := by
  cases b
  · have h2 := allocate_false_ok df t sts h
    subst h2
    intro st hst
    exact (modeBGroups_stations df t _ _ st hst).2
  · obtain ⟨_, h2⟩ := allocate_true_ok df t sts h
    subst h2
    intro st hst
    exact (modeALoop_stations df t _ _ _ st hst).2.1

/-! ## Claims about station shapes and the summary -/

/-- Helper for witnesses: the Mode A allocation of the one-row overflow
table at target 1. -/
theorem dfOverflowA_allocA :
    allocate_processes_to_stations dfOverflowA true 1 = Except.ok [stOverflowA] := by
  norm_num +decide [dfOverflowA, pOver, stOverflowA, allocate_processes_to_stations,
    findViolation, findViolationAux, modeALoop, findSeed, scanStation, mkStationA,
    calculate_station_time]

/-- Helper for witnesses: the Mode B allocation of the one-row overflow
table at target 1, with its leading empty station. -/
theorem dfOverflowA_allocB :
    allocate_processes_to_stations dfOverflowA false 1 = Except.ok [stEmptyB, stXB] := by
  norm_num +decide [dfOverflowA, pOver, stEmptyB, stXB, allocate_processes_to_stations,
    modeB, modeBGroups, machineTypes, packGroup, packGroupAux, mkStationB,
    strLe, calculate_station_time]

/-- Claim C3: in Mode A every returned station stays within the target,
except possibly a singleton station whose own duration exceeds it. -/
theorem claim_C3 (df : List Process) (t : ℚ) (sts : List Station)
    (_hpos : 0 < t)
    (h : allocate_processes_to_stations df true t = Except.ok sts) :
    ∀ st ∈ sts, st.total_expected_time ≤ t ∨
      ∃ p ∈ df, st.processes = [procSummary p] ∧ t < p.expectedTimeInMin := by
  intro st hst
  obtain ⟨_, h2⟩ := allocate_true_ok df t sts h
  subst h2
  obtain ⟨_, _, h3⟩ := modeALoop_stations df t _ _ _ st hst
  rcases h3 with h3 | ⟨p, hp, hproc, htot⟩
  · exact Or.inl h3
  · by_cases hle : st.total_expected_time ≤ t
    · exact Or.inl hle
    · exact Or.inr ⟨p, hp, hproc, htot ▸ lt_of_not_le hle⟩

/-- Claim C3 witness: the overflow table at target 1 yields a singleton
station over target. -/
theorem claim_C3_witness :
    stOverflowA.total_expected_time ≤ 1 ∨
      ∃ p ∈ dfOverflowA, stOverflowA.processes = [procSummary p] ∧
        1 < p.expectedTimeInMin :=
  claim_C3 dfOverflowA 1 [stOverflowA] (by decide) dfOverflowA_allocA stOverflowA
    (List.mem_singleton_self _)

/-- Claim C6: Mode A stations always report machines_required = 1; Mode B
stations report the ceiling of their total expected time. -/
theorem claim_C6 (df : List Process) (t : ℚ) :
    (∀ sts, allocate_processes_to_stations df true t = Except.ok sts →
      ∀ st ∈ sts, st.machines_required = 1) ∧
    (∀ sts, allocate_processes_to_stations df false t = Except.ok sts →
      ∀ st ∈ sts, st.machines_required = Int.ceil st.total_expected_time) := by
  constructor
  · intro sts h st hst
    obtain ⟨_, h2⟩ := allocate_true_ok df t sts h
    subst h2
    exact (modeALoop_stations df t _ _ _ st hst).1
  · intro sts h st hst
    have h2 := allocate_false_ok df t sts h
    subst h2
    exact (modeBGroups_stations df t _ _ st hst).1

/-- Claim C6 witness: both policies observed on the overflow table. -/
theorem claim_C6_witness :
    stOverflowA.machines_required = 1 ∧
    stXB.machines_required = Int.ceil stXB.total_expected_time :=
  ⟨(claim_C6 dfOverflowA 1).1 [stOverflowA] dfOverflowA_allocA stOverflowA
      (List.mem_singleton_self _),
    (claim_C6 dfOverflowA 1).2 [stEmptyB, stXB] dfOverflowA_allocB stXB
      (by simp)⟩

/-- Claim C7: the summarizer returns the station count, the sum of the
waste fields (equal, on allocator output, to the sum of target minus
total over stations), and the sum of the machine counts; on the empty
sequence all three are zero. -/
theorem claim_C7 (df : List Process) (b : Bool) (t : ℚ) (sts : List Station)
    (h : allocate_processes_to_stations df b t = Except.ok sts) :
    (generate_summary_report sts).total_stations = sts.length ∧
    (generate_summary_report sts).total_waste_time =
      (sts.map (fun s => s.waste_time)).sum ∧
    (generate_summary_report sts).total_waste_time =
      (sts.map (fun s => t - s.total_expected_time)).sum ∧
    (generate_summary_report sts).total_machines_required =
      (sts.map (fun s => s.machines_required)).sum ∧
    generate_summary_report [] =
      { total_stations := 0, total_waste_time := 0, total_machines_required := 0 } := by
  refine ⟨rfl, rfl, ?_, rfl, rfl⟩
  have hw := allocate_waste df b t sts h
  rw [generate_summary_report]
  exact congrArg List.sum (List.map_congr_left hw)

/-- Claim C7 witness: the summary of the Mode B overflow allocation. -/
theorem claim_C7_witness :
    (generate_summary_report [stEmptyB, stXB]).total_stations = [stEmptyB, stXB].length ∧
    (generate_summary_report [stEmptyB, stXB]).total_waste_time =
      ([stEmptyB, stXB].map (fun s => s.waste_time)).sum ∧
    (generate_summary_report [stEmptyB, stXB]).total_waste_time =
      ([stEmptyB, stXB].map (fun s => (1 : ℚ) - s.total_expected_time)).sum ∧
    (generate_summary_report [stEmptyB, stXB]).total_machines_required =
      ([stEmptyB, stXB].map (fun s => s.machines_required)).sum ∧
    generate_summary_report [] =
      { total_stations := 0, total_waste_time := 0, total_machines_required := 0 } :=
  claim_C7 dfOverflowA false 1 [stEmptyB, stXB] dfOverflowA_allocB

/-! ## Termination of the Mode A loop -/

/-- The one-step unfolding of the Mode A loop at positive fuel. -/
theorem modeALoop_succ_eq (df : List Process) (t : ℚ) (fuel : Nat)
    (alloc : List String) (sid : Nat) :
    modeALoop df t (fuel + 1) alloc sid =
      if alloc.length < df.length then
        match findSeed alloc df with
        | none => []
        | some seed =>
          mkStationA sid t
              (scanStation seed.machineType t df (seed.id :: alloc) [seed]).1 ::
            modeALoop df t fuel
              (scanStation seed.machineType t df (seed.id :: alloc) [seed]).2 (sid + 1)
      else [] := rfl

/-- One unit of fuel beyond the shortfall of the allocated list is never
used: every iteration either stops or pushes at least one id. -/
theorem modeALoop_fuel_succ (df : List Process) (t : ℚ) :
    ∀ (fuel : Nat) (alloc : List String) (sid : Nat),
      df.length ≤ alloc.length + fuel →
      modeALoop df t (fuel + 1) alloc sid = modeALoop df t fuel alloc sid := by
  intro fuel
  induction fuel with
  | zero =>
    intro alloc sid hle
    rw [modeALoop_succ_eq df t 0 alloc sid, if_neg (by omega)]
    rfl
  | succ fuel ih =>
    intro alloc sid hle
    rw [modeALoop_succ_eq df t (fuel + 1) alloc sid,
      modeALoop_succ_eq df t fuel alloc sid]
    by_cases hg : alloc.length < df.length
    · rw [if_pos hg, if_pos hg]
      cases hseed : findSeed alloc df with
      | none => rfl
      | some seed =>
        dsimp only
        congr 1
        apply ih
        obtain ⟨ext, _, e2, _, _, _⟩ :=
          scanStation_spec seed.machineType t df (seed.id :: alloc) [seed]
        rw [e2]
        simp only [List.length_append, List.length_reverse, List.length_map,
          List.length_cons]
        omega
    · rw [if_neg hg, if_neg hg]

/-- Claim C10: the Mode A while loop terminates on every finite table:
table length plus one iterations always suffice (extra fuel changes
nothing), because each successful iteration strictly grows the
allocated list by at least the seed. -/
theorem claim_C10 (df : List Process) (t : ℚ) :
    (∀ extra, modeALoop df t (df.length + 1 + extra) [] 1 =
      modeALoop df t (df.length + 1) [] 1) ∧
    (∀ (alloc : List String) (seed : Process), findSeed alloc df = some seed →
      alloc.length <
        (scanStation seed.machineType t df (seed.id :: alloc) [seed]).2.length) := by
  constructor
  · intro extra
    induction extra with
    | zero => rfl
    | succ extra ih =>
      rw [← ih]
      have he : df.length + 1 + (extra + 1) = (df.length + 1 + extra) + 1 := by omega
      rw [he]
      apply modeALoop_fuel_succ
      simp only [List.length_nil]
      omega
  · intro alloc seed _
    obtain ⟨ext, _, e2, _, _, _⟩ :=
      scanStation_spec seed.machineType t df (seed.id :: alloc) [seed]
    rw [e2]
    simp only [List.length_append, List.length_reverse, List.length_map,
      List.length_cons]
    omega

/-- Claim C10 witness: on the one-row table the first iteration grows
the empty allocated list. -/
theorem claim_C10_witness :
    List.length ([] : List String) <
      (scanStation pOver.machineType 1 dfOverflowA (pOver.id :: []) [pOver]).2.length :=
  (claim_C10 dfOverflowA 1).2 [] pOver rfl

/-! ## Mode A dependency ordering -/

/-- Every summary in the station at position i of the Mode A loop output
comes from a table row all of whose dependencies are either already in
the incoming allocated list or placed at a position at most i. -/
theorem modeALoop_deps (df : List Process) (t : ℚ) :
    ∀ (fuel : Nat) (alloc : List String) (sid : Nat) (i : Nat) (st : Station),
      (modeALoop df t fuel alloc sid)[i]? = some st →
      ∀ s ∈ st.processes,
        ∃ p ∈ df, p.id = s.id ∧ p.name = s.name ∧
          ∀ d ∈ p.dependency, d ∈ alloc ∨
            ∃ j ≤ i, ∃ st', (modeALoop df t fuel alloc sid)[j]? = some st' ∧
              ∃ s' ∈ st'.processes, s'.id = d := by
  intro fuel
  induction fuel with
  | zero =>
    intro alloc sid i st h
    simp [modeALoop] at h
  | succ fuel ih =>
    intro alloc sid i st h
    rw [modeALoop_succ_eq] at h ⊢
    by_cases hg : alloc.length < df.length
    · rw [if_pos hg] at h ⊢
      cases hseed : findSeed alloc df with
      | none =>
        rw [hseed] at h
        simp at h
      | some seed =>
        rw [hseed] at h
        dsimp only at h ⊢
        obtain ⟨hseedmem, _, hseeddep⟩ := findSeed_spec alloc df seed hseed
        obtain ⟨ext, e1, e2, e3, _, _⟩ :=
          scanStation_spec seed.machineType t df (seed.id :: alloc) [seed]
        cases i with
        | zero =>
          rw [List.getElem?_cons_zero] at h
          injection h with h
          subst h
          intro s hs
          rw [mkStationA] at hs
          simp only at hs
          obtain ⟨q, hq, hqs⟩ := List.mem_map.mp hs
          rw [e1, List.singleton_append, List.mem_cons] at hq
          have hqdf : q ∈ df := by
            rcases hq with rfl | hq2
            · exact hseedmem
            · exact (e3 q hq2).1
          refine ⟨q, hqdf, by rw [← hqs]; rfl, by rw [← hqs]; rfl, ?_⟩
          intro d hd
          have hdin : d ∈ (scanStation seed.machineType t df (seed.id :: alloc) [seed]).2 := by
            rcases hq with rfl | hq2
            · rw [e2]
              exact List.mem_append_right _ (List.mem_cons_of_mem _ (hseeddep d hd))
            · exact (e3 q hq2).2.2.2 d hd
          rw [e2] at hdin
          rcases List.mem_append.mp hdin with hdin | hdin
          · refine Or.inr ⟨0, Nat.le_refl 0, mkStationA sid t
              (scanStation seed.machineType t df (seed.id :: alloc) [seed]).1,
              List.getElem?_cons_zero, ?_⟩
            rw [List.mem_reverse] at hdin
            obtain ⟨q', hq', hq'd⟩ := List.mem_map.mp hdin
            refine ⟨procSummary q', ?_, hq'd⟩
            rw [mkStationA]
            simp only
            exact List.mem_map_of_mem _ (by
              rw [e1, List.singleton_append]
              exact List.mem_cons_of_mem _ hq')
          · rcases List.mem_cons.mp hdin with rfl | hdin2
            · refine Or.inr ⟨0, Nat.le_refl 0, mkStationA sid t
                (scanStation seed.machineType t df (seed.id :: alloc) [seed]).1,
                List.getElem?_cons_zero, procSummary seed, ?_, rfl⟩
              rw [mkStationA]
              simp only
              exact List.mem_map_of_mem _ (by
                rw [e1, List.singleton_append]
                exact List.mem_cons_self _ _)
            · exact Or.inl hdin2
        | succ j =>
          rw [List.getElem?_cons_succ] at h
          intro s hs
          obtain ⟨p, hp, hpid, hpname, hpdep⟩ := ih _ _ j st h s hs
          refine ⟨p, hp, hpid, hpname, ?_⟩
          intro d hd
          rcases hpdep d hd with hdin | ⟨j', hj', st', hst', s', hs', hs'd⟩
          · rw [e2] at hdin
            rcases List.mem_append.mp hdin with hdin | hdin
            · refine Or.inr ⟨0, Nat.zero_le _, mkStationA sid t
                (scanStation seed.machineType t df (seed.id :: alloc) [seed]).1,
                List.getElem?_cons_zero, ?_⟩
              rw [List.mem_reverse] at hdin
              obtain ⟨q', hq', hq'd⟩ := List.mem_map.mp hdin
              refine ⟨procSummary q', ?_, hq'd⟩
              rw [mkStationA]
              simp only
              exact List.mem_map_of_mem _ (by
                rw [e1, List.singleton_append]
                exact List.mem_cons_of_mem _ hq')
            · rcases List.mem_cons.mp hdin with rfl | hdin2
              · refine Or.inr ⟨0, Nat.zero_le _, mkStationA sid t
                  (scanStation seed.machineType t df (seed.id :: alloc) [seed]).1,
                  List.getElem?_cons_zero, procSummary seed, ?_, rfl⟩
                rw [mkStationA]
                simp only
                exact List.mem_map_of_mem _ (by
                  rw [e1, List.singleton_append]
                  exact List.mem_cons_self _ _)
              · exact Or.inl hdin2
          · exact Or.inr ⟨j' + 1, Nat.succ_le_succ hj', st',
              by rw [List.getElem?_cons_succ]; exact hst', s', hs', hs'd⟩
    · rw [if_neg hg] at h
      simp at h

/-- Helper for witnesses: the Mode A allocation of the dependency chain
at target 3 packs both rows into one station. -/
theorem dfDepW_alloc :
    allocate_processes_to_stations dfDepW true 3 = Except.ok [stDepW] := by
  norm_num +decide [dfDepW, stDepW, allocate_processes_to_stations, findViolation,
    findViolationAux, modeALoop, findSeed, scanStation, mkStationA,
    calculate_station_time]

/-- Claim C4: in Mode A, every process placed in the result has each of
its declared dependencies placed in a station at or before its own. -/
theorem claim_C4 (df : List Process) (t : ℚ) (sts : List Station)
    (h : allocate_processes_to_stations df true t = Except.ok sts) :
    ∀ (i : Nat) (st : Station), sts[i]? = some st →
      ∀ s ∈ st.processes,
        ∃ p ∈ df, p.id = s.id ∧ p.name = s.name ∧
          ∀ d ∈ p.dependency, ∃ j ≤ i, ∃ st', sts[j]? = some st' ∧
            ∃ s' ∈ st'.processes, s'.id = d := by
  obtain ⟨_, h2⟩ := allocate_true_ok df t sts h
  subst h2
  intro i st hi s hs
  obtain ⟨p, hp, hpid, hpname, hpdep⟩ := modeALoop_deps df t _ [] 1 i st hi s hs
  refine ⟨p, hp, hpid, hpname, fun d hd => ?_⟩
  rcases hpdep d hd with habs | hok
  · exact absurd habs (List.not_mem_nil d)
  · exact hok

/-- Claim C4 witness: in the dependency chain, the dependency of B is
placed in the same station, at index 0. -/
theorem claim_C4_witness :
    ∃ p ∈ dfDepW, p.id = "B" ∧ p.name = "B" ∧
      ∀ d ∈ p.dependency, ∃ j ≤ 0, ∃ st', [stDepW][j]? = some st' ∧
        ∃ s' ∈ st'.processes, s'.id = d :=
  claim_C4 dfDepW 3 [stDepW] dfDepW_alloc 0 stDepW rfl
    { id := "B", name := "B" } (by decide)

/-! ## Mode A no duplicate placement -/

/-- The ids laid out by the Mode A loop are distinct and avoid the
incoming allocated list. -/
theorem modeALoop_ids (df : List Process) (t : ℚ) :
    ∀ (fuel : Nat) (alloc : List String) (sid : Nat),
      (((modeALoop df t fuel alloc sid).flatMap
        (fun st => st.processes.map (fun s => s.id))).Nodup) ∧
      ∀ x ∈ (modeALoop df t fuel alloc sid).flatMap
        (fun st => st.processes.map (fun s => s.id)), x ∉ alloc := by
  intro fuel
  induction fuel with
  | zero =>
    intro alloc sid
    simp [modeALoop]
  | succ fuel ih =>
    intro alloc sid
    rw [modeALoop_succ_eq]
    by_cases hg : alloc.length < df.length
    · rw [if_pos hg]
      cases hseed : findSeed alloc df with
      | none => simp
      | some seed =>
        dsimp only
        obtain ⟨hseedmem, hseedid, _⟩ := findSeed_spec alloc df seed hseed
        obtain ⟨ext, e1, e2, e3, e4, _⟩ :=
          scanStation_spec seed.machineType t df (seed.id :: alloc) [seed]
        obtain ⟨ihn, iha⟩ :=
          ih (scanStation seed.machineType t df (seed.id :: alloc) [seed]).2 (sid + 1)
        rw [List.flatMap_cons]
        have hids : (mkStationA sid t
            (scanStation seed.machineType t df (seed.id :: alloc) [seed]).1).processes.map
              (fun s => s.id) =
            seed.id :: ext.map (fun p => p.id) := by
          simp [mkStationA, procSummary, e1]
        rw [hids]
        have hsub : ∀ x, x ∈ seed.id :: ext.map (fun p => p.id) →
            x ∈ (scanStation seed.machineType t df (seed.id :: alloc) [seed]).2 := by
          intro x hx
          rw [e2]
          rcases List.mem_cons.mp hx with rfl | hx2
          · exact List.mem_append_right _ (List.mem_cons_self _ _)
          · exact List.mem_append_left _ (List.mem_reverse.mpr hx2)
        constructor
        · apply List.Nodup.append
          · rw [List.nodup_cons]
            refine ⟨fun hc => ?_, e4⟩
            obtain ⟨q, hq, hqid⟩ := List.mem_map.mp hc
            exact (e3 q hq).2.2.1 (hqid ▸ List.mem_cons_self _ _)
          · exact ihn
          · intro x hx hx2
            exact iha x hx2 (hsub x hx)
        · intro x hx
          rcases List.mem_append.mp hx with hx | hx
          · rcases List.mem_cons.mp hx with rfl | hx2
            · exact hseedid
            · obtain ⟨q, hq, hqid⟩ := List.mem_map.mp hx2
              intro hc
              exact (e3 q hq).2.2.1 (hqid ▸ List.mem_cons_of_mem _ hc)
          · intro hc
            refine iha x hx ?_
            rw [e2]
            exact List.mem_append_right _ (List.mem_cons_of_mem _ hc)
    · rw [if_neg hg]
      simp

/-! ## Mode B structure -/

/-- The inner Mode B loop distributes exactly the incoming open station
followed by the group over its closed stations plus the final open
station, in order. -/
theorem packGroupAux_join (t : ℚ) :
    ∀ (g cur : List Process) (tot : ℚ) (sid : Nat),
      ((packGroupAux t g cur tot sid).1.flatMap (fun st => st.processes)) ++
        (packGroupAux t g cur tot sid).2.1.map procSummary =
      (cur ++ g).map procSummary := by
  intro g
  induction g with
  | nil =>
    intro cur tot sid
    simp [packGroupAux]
  | cons p rest ih =>
    intro cur tot sid
    rw [packGroupAux]
    by_cases hc : tot + p.expectedTimeInMin ≤ t
    · rw [if_pos hc, ih (cur ++ [p])]
      simp
    · rw [if_neg hc]
      dsimp only
      rw [List.flatMap_cons]
      have hb : (mkStationB sid t cur tot).processes = cur.map procSummary := rfl
      rw [hb, List.append_assoc, ih [p] p.expectedTimeInMin (sid + 1)]
      simp

/-- One Mode B group contributes exactly its rows, in order. -/
theorem packGroup_join (t : ℚ) (g : List Process) (sid : Nat) :
    (packGroup t g sid).1.flatMap (fun st => st.processes) = g.map procSummary := by
  have hj := packGroupAux_join t g [] 0 sid
  rw [List.nil_append] at hj
  rw [packGroup]
  by_cases he : (packGroupAux t g [] 0 sid).2.1 = []
  · rw [if_pos he]
    rw [he] at hj
    simpa using hj
  · rw [if_neg he]
    dsimp only
    rw [List.flatMap_append]
    have hs : ([mkStationB (packGroupAux t g [] 0 sid).2.2.2 t
        (packGroupAux t g [] 0 sid).2.1 (packGroupAux t g [] 0 sid).2.2.1] :
          List Station).flatMap (fun st => st.processes) =
        (packGroupAux t g [] 0 sid).2.1.map procSummary := by
      simp [mkStationB]
    rw [hs]
    exact hj

/-- The member stations of a list contribute order-preserving pieces of
the joined process sequence. -/
theorem mem_flatMap_sublist (l : List Station) (st : Station) (h : st ∈ l) :
    List.Sublist st.processes (l.flatMap (fun s => s.processes)) := by
  induction l with
  | nil => cases h
  | cons a rest ih =>
    rw [List.flatMap_cons]
    rcases List.mem_cons.mp h with rfl | h2
    · exact List.sublist_append_left _ _
    · exact (ih h2).trans (List.sublist_append_right _ _)

/-- Every Mode B station comes from the pack of some listed machine
type. -/
theorem modeBGroups_mem (df : List Process) (t : ℚ) :
    ∀ (ms : List String) (sid : Nat) (st : Station), st ∈ modeBGroups df t ms sid →
      ∃ m ∈ ms, ∃ sid',
        st ∈ (packGroup t (df.filter (fun p => decide (p.machineType = m))) sid').1 := by
  intro ms
  induction ms with
  | nil =>
    intro sid st h
    simp [modeBGroups] at h
  | cons m rest ih =>
    intro sid st h
    rw [modeBGroups] at h
    rcases List.mem_append.mp h with h | h
    · exact ⟨m, List.mem_cons_self _ _, sid, h⟩
    · obtain ⟨m', hm', sid', h'⟩ := ih _ st h
      exact ⟨m', List.mem_cons_of_mem _ hm', sid', h'⟩

/-- Stations of the inner loop are stations of the group pack. -/
theorem packGroup_mem_of_aux (t : ℚ) (g : List Process) (sid : Nat) (st : Station)
    (h : st ∈ (packGroupAux t g [] 0 sid).1) : st ∈ (packGroup t g sid).1 := by
  rw [packGroup]
  by_cases he : (packGroupAux t g [] 0 sid).2.1 = []
  · rw [if_pos he]
    exact h
  · rw [if_neg he]
    exact List.mem_append_left _ h

/-- To exhibit a Mode B station with a property, it is enough to
exhibit one in the pack of a listed machine type, for every starting
station number. -/
theorem modeBGroups_cover (df : List Process) (t : ℚ) (P : Station → Prop) :
    ∀ (ms : List String) (sid : Nat) (m : String), m ∈ ms →
      (∀ sid', ∃ st ∈
        (packGroup t (df.filter (fun p => decide (p.machineType = m))) sid').1, P st) →
      ∃ st ∈ modeBGroups df t ms sid, P st := by
  intro ms
  induction ms with
  | nil =>
    intro sid m hm
    exact absurd hm (List.not_mem_nil m)
  | cons m0 rest ih =>
    intro sid m hm hP
    rw [modeBGroups]
    rcases List.mem_cons.mp hm with rfl | hm2
    · obtain ⟨st, hst, hPst⟩ := hP sid
      exact ⟨st, List.mem_append_left _ hst, hPst⟩
    · obtain ⟨st, hst, hPst⟩ := ih _ m hm2 hP
      exact ⟨st, List.mem_append_right _ hst, hPst⟩

/-- The whole Mode B output joins to the groups in key order. -/
theorem modeBGroups_flatMap (df : List Process) (t : ℚ) :
    ∀ (ms : List String) (sid : Nat),
      (modeBGroups df t ms sid).flatMap (fun st => st.processes) =
        ms.flatMap (fun m =>
          (df.filter (fun p => decide (p.machineType = m))).map procSummary) := by
  intro ms
  induction ms with
  | nil =>
    intro sid
    simp [modeBGroups]
  | cons m rest ih =>
    intro sid
    rw [modeBGroups, List.flatMap_append, List.flatMap_cons, packGroup_join, ih]

theorem machineTypes_nodup (df : List Process) : (machineTypes df).Nodup :=
  (List.perm_insertionSort strLe _).nodup_iff.mpr (List.nodup_dedup _)


/-! ## Claims C5, C8, C9 -/

/-- Claim C5: with unique table ids, no process id is placed twice, in
either mode: the concatenation of all station process ids is
duplicate-free. -/
theorem claim_C5 (df : List Process) (b : Bool) (t : ℚ) (sts : List Station)
    (hids : (df.map (fun p => p.id)).Nodup)
    (h : allocate_processes_to_stations df b t = Except.ok sts) :
    (sts.flatMap (fun st => st.processes.map (fun s => s.id))).Nodup := by
  cases b
  · have h2 := allocate_false_ok df t sts h
    subst h2
    rw [modeB]
    have m1 : ∀ (L : List Station), L.flatMap (fun st => st.processes.map (fun s => s.id)) =
        (L.flatMap (fun st => st.processes)).map (fun s => s.id) := by
      intro L
      rw [List.map_flatMap]
    have key : (modeBGroups df t (machineTypes df) 1).flatMap
        (fun st => st.processes.map (fun s => s.id)) =
        (machineTypes df).flatMap (fun m =>
          (df.filter (fun p => decide (p.machineType = m))).map (fun p => p.id)) := by
      rw [m1, modeBGroups_flatMap, List.map_flatMap]
      congr 1
      funext m
      rw [List.map_map]
      rfl
    rw [key, List.nodup_flatMap]
    constructor
    · intro m _
      exact List.Nodup.sublist (List.Sublist.map _ (List.filter_sublist df)) hids
    · refine List.Pairwise.imp ?_ (machineTypes_nodup df)
      intro m1 m2 hne x hx1 hx2
      obtain ⟨p1, hp1, hp1id⟩ := List.mem_map.mp hx1
      obtain ⟨p2, hp2, hp2id⟩ := List.mem_map.mp hx2
      rw [List.mem_filter] at hp1 hp2
      have e12 : p1 = p2 :=
        List.inj_on_of_nodup_map hids hp1.1 hp2.1 (by rw [hp1id, hp2id])
      apply hne
      have g1 := of_decide_eq_true hp1.2
      have g2 := of_decide_eq_true hp2.2
      rw [← g1, ← g2, e12]
  · obtain ⟨_, h2⟩ := allocate_true_ok df t sts h
    subst h2
    exact (modeALoop_ids df t _ [] 1).1

/-- Claim C5 witness: unique placement on the dependency chain table. -/
theorem claim_C5_witness :
    ([stDepW].flatMap (fun st => st.processes.map (fun s => s.id))).Nodup :=
  claim_C5 dfDepW true 3 [stDepW] (by decide) dfDepW_alloc

/-- Claim C8: every Mode B station draws its processes from the rows of
a single machine type, and reading the result's stations in order yields
each machine-type group's rows exactly in their original table order:
the concatenation of all station process lists is the concatenation of
the groups in key order, each group mapped in table order. -/
theorem claim_C8 (df : List Process) (t : ℚ) (sts : List Station)
    (h : allocate_processes_to_stations df false t = Except.ok sts) :
    (∀ st ∈ sts, ∃ m : String,
      List.Sublist st.processes
        ((df.filter (fun p => decide (p.machineType = m))).map procSummary)) ∧
    sts.flatMap (fun st => st.processes) =
      (machineTypes df).flatMap (fun m =>
        (df.filter (fun p => decide (p.machineType = m))).map procSummary) := by
  have h2 := allocate_false_ok df t sts h
  subst h2
  constructor
  · intro st hst
    rw [modeB] at hst
    obtain ⟨m, _, sid', hmem⟩ := modeBGroups_mem df t (machineTypes df) 1 st hst
    refine ⟨m, ?_⟩
    have hsub := mem_flatMap_sublist _ st hmem
    rwa [packGroup_join] at hsub
  · rw [modeB, modeBGroups_flatMap]

/-- Claim C8 witness: on the overflow table, whose single group spans
two stations, the station holding X is a piece of the M1 group and the
stations joined in order give back the M1 group in table order. -/
theorem claim_C8_witness :
    (∃ m : String, List.Sublist stXB.processes
      ((dfOverflowA.filter (fun p => decide (p.machineType = m))).map procSummary)) ∧
    [stEmptyB, stXB].flatMap (fun st => st.processes) =
      (machineTypes dfOverflowA).flatMap (fun m =>
        (dfOverflowA.filter (fun p => decide (p.machineType = m))).map procSummary) :=
  ⟨(claim_C8 dfOverflowA 1 [stEmptyB, stXB] dfOverflowA_allocB).1 stXB (by simp),
    (claim_C8 dfOverflowA 1 [stEmptyB, stXB] dfOverflowA_allocB).2⟩

/-- Claim C9: whenever the first row of a machine-type group exceeds the
target by itself, Mode B emits an empty station with zero total, waste
equal to the target, and zero machines. -/
theorem claim_C9 (df : List Process) (t : ℚ) (m : String) (p : Process)
    (rest : List Process) (sts : List Station)
    (hm : m ∈ machineTypes df)
    (hgrp : df.filter (fun q => decide (q.machineType = m)) = p :: rest)
    (hp : t < p.expectedTimeInMin)
    (h : allocate_processes_to_stations df false t = Except.ok sts) :
    ∃ st ∈ sts, st.processes = [] ∧ st.total_expected_time = 0 ∧
      st.waste_time = t ∧ st.machines_required = 0 := by
  have h2 := allocate_false_ok df t sts h
  subst h2
  rw [modeB]
  refine modeBGroups_cover df t _ (machineTypes df) 1 m hm ?_
  intro sid'
  refine ⟨mkStationB sid' t [] 0, ?_, rfl, rfl, ?_, ?_⟩
  · apply packGroup_mem_of_aux
    rw [hgrp, packGroupAux]
    rw [if_neg (by simp only [zero_add]; exact not_le.mpr hp)]
    exact List.mem_cons_self _ _
  · show t - 0 = t
    rw [sub_zero]
  · show Int.ceil (0 : ℚ) = 0
    exact Int.ceil_zero

/-- Claim C9 witness: the overflow table produces the empty station. -/
theorem claim_C9_witness :
    ∃ st ∈ [stEmptyB, stXB], st.processes = [] ∧ st.total_expected_time = 0 ∧
      st.waste_time = 1 ∧ st.machines_required = 0 :=
  claim_C9 dfOverflowA 1 "M1" pOver [] [stEmptyB, stXB] (by decide) rfl (by decide)
    dfOverflowA_allocB

end StationAllocation
